import Mathlib

/-!
Shallow embedding of the scheduling/billing core of the repository
(`src/lib/calendar-utils.ts`, with the record types of `src/types/index.ts`
and the alternate module variant contained in the same file).

Modelling conventions:
* Instants handled by the slot classifier are minutes since an arbitrary
  epoch, as `Int`; `addHours t 1` of the date library becomes `t + 60`.
* Calendar days handled by `getWeekDates` are days since an epoch that is a
  Monday, as `Int`; the date library's `startOfWeek` with `weekStartsOn: 1`
  becomes truncation to the previous multiple-of-7 boundary.
* Hours, rates and monetary amounts are `ℚ` (JavaScript numbers; every
  computation the claims exercise is exact decimal arithmetic).
* JavaScript objects used as string-keyed records become insertion-ordered
  association lists; `obj[k] = v` is an overwriting `setEntry`, iteration
  with `for..in` follows first-insertion key order (`firstDedup`).
-/

/-- UI-facing booking (`src/types/index.ts`, interface `Booking`): start and
end instants in minutes, plus display fields. -/
structure Booking where
  id : String
  startTime : Int
  endTime : Int
  clientName : String
  service : Option String := none
  title : Option String := none
deriving DecidableEq, Repr

/-- Result record of `checkSlotAvailability`
(`{ isBooked; isBuffer; bookingDetails? }`). -/
structure SlotAvailability where
  isBooked : Bool
  isBuffer : Bool
  bookingDetails : Option Booking := none
deriving DecidableEq, Repr

/-- Modelled from the spec: the persisted booking record (§6) consumed by the
pricing engine — identifier, start timestamp, client reference, project
reference, duration in hours.  Its declaration file (`types/firestore`) is not
part of the sources; the fields are those the embedded functions read.  The
start timestamp is reduced to its year and month because month equality
(`isSameMonth`) is the only observation made of it here. -/
structure BookingDocument where
  id : String
  startYear : Int
  startMonth : Int
  clientId : String
  projectId : String
  duration : ℚ
deriving DecidableEq, Repr

/-- Modelled from the spec: the persisted project record (§6) — identifier,
name, billing type, optional custom rate, optional package tier label. -/
structure ProjectDocument where
  id : String
  name : String
  billingType : String
  customRate : Option ℚ := none
  pacoteSelecionado : Option String := none
deriving DecidableEq, Repr

/-- Modelled from the spec: the persisted client record (§6) — identifier and
display name. -/
structure ClientDocument where
  id : String
  name : String
deriving DecidableEq, Repr

/-- `ProjectCostMetrics` of `src/types/index.ts`. -/
structure ProjectCostMetrics where
  totalHours : ℚ
  pricePerHour : ℚ
  totalAmount : ℚ
deriving DecidableEq, Repr

/-- `ClientMonthlyMetrics` of `src/types/index.ts`. -/
structure ClientMonthlyMetrics where
  totalHours : ℚ
  pricePerHour : ℚ
  totalAmount : ℚ
deriving DecidableEq, Repr

/-- `MonthlyRecipe = Record<string, ClientMonthlyMetrics>`, as an
insertion-ordered association list. -/
abbrev MonthlyRecipe := List (String × ClientMonthlyMetrics)

/-- The booked-overlap test of `checkSlotAvailability` (both loops use the
same three-clause disjunction). -/
def bookedCond (slotTime slotEndTime : Int) (b : Booking) : Prop :=
  (b.startTime ≤ slotTime ∧ slotTime < b.endTime) ∨
  (b.startTime < slotEndTime ∧ slotEndTime ≤ b.endTime) ∨
  (slotTime ≤ b.startTime ∧ b.endTime ≤ slotEndTime)

instance (s e : Int) (b : Booking) : Decidable (bookedCond s e b) := by
  unfold bookedCond; infer_instance

/-- The per-booking buffer test of the second loop of
`checkSlotAvailability`: the slot start is in the hour before the booking
starts or in the hour after it ends (`BUFFER_HOURS = 1`). -/
def bufferCond (slotTime : Int) (b : Booking) : Prop :=
  (b.startTime - 60 ≤ slotTime ∧ slotTime < b.startTime) ∨
  (b.endTime ≤ slotTime ∧ slotTime < b.endTime + 60)

instance (s : Int) (b : Booking) : Decidable (bufferCond s b) := by
  unfold bufferCond; infer_instance

/-- `checkSlotAvailability` (`calendar-utils.ts:51-96`): first pass returns
the first booking overlapping the slot `[slotTime, slotTime+1h)`; second pass
returns the first not-directly-booked booking whose one-hour buffer zone
contains the slot start; otherwise the slot is free. -/
def checkSlotAvailability (slotTime : Int) (bookings : List Booking) :
    SlotAvailability :=
  let slotEndTime := slotTime + 60
  match bookings.find? (fun b => decide (bookedCond slotTime slotEndTime b)) with
  | some b => ⟨true, false, some b⟩
  | none =>
    match bookings.find? (fun b =>
        !(decide (bookedCond slotTime slotEndTime b)) &&
        decide (bufferCond slotTime b)) with
    | some b => ⟨false, true, some b⟩
    | none => ⟨false, false, none⟩

/-- Day-of-week of a day count, with day 0 a Monday: 0 = Monday … 5 =
Saturday, 6 = Sunday. -/
def dayOfWeek (d : Int) : Int := d % 7

/-- The date library's `startOfWeek(d, { weekStartsOn: 1 })`: the Monday
beginning the week containing `d`. -/
def startOfWeekMonday (d : Int) : Int := d - d % 7

/-- `getWeekDates` (`calendar-utils.ts:32-39`): the Monday of the week of
`currentDate` followed by the next five days. -/
def getWeekDates (currentDate : Int) : List Int :=
  (List.range 6).map (fun i => startOfWeekMonday currentDate + i)

/-- `getProjectPricePerHour` (`calendar-utils.ts:105-119`): an explicit
custom rate on a `personalizado` project wins; otherwise tiered pricing on
the cumulative hours, with 350 the default below 10 hours. -/
def getProjectPricePerHour (project : ProjectDocument) (totalHours : ℚ) : ℚ :=
  if project.billingType = "personalizado" ∧ project.customRate.isSome then
    project.customRate.getD 0
  else if 40 ≤ totalHours then 160
  else if 20 ≤ totalHours then 230
  else if 10 ≤ totalHours then 260
  else 350

/-- `getPricePerHourForProject` (the alternate module variant kept inside
`src/types/index.ts`, lines 135-152): rate from the billing type alone —
`customRate ?? 0` for `personalizado`, the named package tier for `pacote`
(default `Avulso`), 0 otherwise. -/
def getPricePerHourForProject (project : ProjectDocument) : ℚ :=
  if project.billingType = "personalizado" then
    project.customRate.getD 0
  else if project.billingType = "pacote" then
    match project.pacoteSelecionado with
    | some s =>
      if s = "Avulso" then 350
      else if s = "Pacote 10h" then 260
      else if s = "Pacote 20h" then 230
      else if s = "Pacote 40h" then 160
      else 350
    | none => 350
  else 0

/-- `reduce((sum, b) => sum + b.duration, 0)` over a booking-document list. -/
def sumDurations (l : List BookingDocument) : ℚ :=
  l.foldl (fun s b => s + b.duration) 0

/-- `calculateProjectCost` (`calendar-utils.ts:127-146`): `null` for a
missing project; otherwise the lifetime hours, the rate resolved from them,
and their product. -/
def calculateProjectCost (projectBookings : List BookingDocument)
    (project : Option ProjectDocument) : Option ProjectCostMetrics :=
  match project with
  | none => none
  | some p =>
    let totalHours := sumDurations projectBookings
    let pricePerHour := getProjectPricePerHour p totalHours
    some ⟨totalHours, pricePerHour, totalHours * pricePerHour⟩

/-- The date library's `isSameMonth`: same calendar year and month. -/
def isSameMonth (b : BookingDocument) (targetYear targetMonth : Int) : Prop :=
  b.startYear = targetYear ∧ b.startMonth = targetMonth

instance (b : BookingDocument) (y m : Int) : Decidable (isSameMonth b y m) := by
  unfold isSameMonth; infer_instance

/-- Keys of a JavaScript record built by successive pushes, in `for..in`
iteration order: first occurrences, in order. -/
def firstDedup : List String → List String
  | [] => []
  | a :: t => a :: firstDedup (t.filter (fun x => x ≠ a))
termination_by l => l.length
decreasing_by
  simp only [List.length_cons]
  exact Nat.lt_succ_of_le (List.length_filter_le _ _)

/-- `recipe[k] = v` on a string-keyed record: overwrite the entry if the key
is present, append it otherwise. -/
def setEntry (r : MonthlyRecipe) (k : String) (v : ClientMonthlyMetrics) :
    MonthlyRecipe :=
  if r.any (fun p => p.1 = k) then
    r.map (fun p => if p.1 = k then (k, v) else p)
  else r ++ [(k, v)]

/-- Record lookup. -/
def getEntry (r : MonthlyRecipe) (k : String) : Option ClientMonthlyMetrics :=
  (r.find? (fun p => p.1 = k)).map Prod.snd

/-- The inner per-client loop of `calculateMonthlyClientMetrics`
(`calendar-utils.ts:229-249`): fold over the client's project groups,
accumulating `(clientTotalHours, clientTotalAmount)`.  For each resolvable
project the monthly hours are priced at the rate `calculateProjectCost`
resolves from ALL of the project's bookings. -/
def clientProjectFold (allBookingDocuments : List BookingDocument)
    (allProjects : List ProjectDocument) (cbs : List BookingDocument) : ℚ × ℚ :=
  (firstDedup (cbs.map (·.projectId))).foldl (fun acc projectId =>
    match allProjects.find? (fun p => decide (p.id = projectId)) with
    | none => acc
    | some project =>
      let allBookingsForThisProject :=
        allBookingDocuments.filter (fun b => decide (b.projectId = projectId))
      match calculateProjectCost allBookingsForThisProject (some project) with
      | none => acc
      | some m =>
        let monthlyHours :=
          sumDurations (cbs.filter (fun b => decide (b.projectId = projectId)))
        (acc.1 + monthlyHours, acc.2 + monthlyHours * m.pricePerHour))
    (0, 0)

/-- `calculateMonthlyClientMetrics` (`calendar-utils.ts:194-261`): filter the
bookings to the target month, group by client then by project, price each
project's monthly hours at its lifetime-resolved rate, and report per client
the monthly hours, the blended rate (`totalAmount / totalHours`, 0 when no
positive hours) and the monthly amount, keyed by client display name. -/
def calculateMonthlyClientMetrics (allBookingDocuments : List BookingDocument)
    (allProjects : List ProjectDocument) (allClients : List ClientDocument)
    (targetYear targetMonth : Int) : MonthlyRecipe :=
  let monthlyBookings := allBookingDocuments.filter
    (fun b => decide (isSameMonth b targetYear targetMonth))
  let clientIds := firstDedup (monthlyBookings.map (·.clientId))
  clientIds.foldl (fun recipe clientId =>
    match allClients.find? (fun c => decide (c.id = clientId)) with
    | none => recipe
    | some client =>
      let cbs := monthlyBookings.filter (fun b => decide (b.clientId = clientId))
      let acc := clientProjectFold allBookingDocuments allProjects cbs
      let effectivePricePerHour := if 0 < acc.1 then acc.2 / acc.1 else 0
      setEntry recipe client.name ⟨acc.1, effectivePricePerHour, acc.2⟩)
    []

/-- Nonempty intersection of the slot interval `[s, s+1h)` with the booking
interval `[startTime, endTime)` — the mathematical notion of overlap the
claims speak about. -/
def overlapsSlot (s : Int) (b : Booking) : Prop :=
  max s b.startTime < min (s + 60) b.endTime

instance (s : Int) (b : Booking) : Decidable (overlapsSlot s b) := by
  unfold overlapsSlot; infer_instance

/-- Stated from the spec's wording, for comparison with the code: the
lifetime-resolved hourly rate of the project `pid` — the rate
`getProjectPricePerHour` resolves from the sum of the durations of every
booking ever recorded for `pid`; `none` when the project is not in the
reference list. -/
def lifetimeRate (allB : List BookingDocument) (allP : List ProjectDocument)
    (pid : String) : Option ℚ :=
  (allP.find? (fun p => decide (p.id = pid))).map
    (fun p => getProjectPricePerHour p
      (sumDurations (allB.filter (fun b => decide (b.projectId = pid)))))

/-- Stated from the spec's wording: a client's monthly hours — the sum, over
the client's distinct project references whose project resolves, of the
client's monthly hours on that project (`cbs` is the client's bookings of the
target month). -/
def clientSpecHours (allB : List BookingDocument)
    (allP : List ProjectDocument) (cbs : List BookingDocument) : ℚ :=
  ((firstDedup (cbs.map (·.projectId))).map (fun pid =>
    match lifetimeRate allB allP pid with
    | none => 0
    | some _ =>
      sumDurations (cbs.filter (fun b => decide (b.projectId = pid))))).sum

/-- Stated from the spec's wording: a client's monthly amount — each (client,
project) pair's monthly hours priced at the project's lifetime-resolved
rate, summed over the client's distinct resolvable project references. -/
def clientSpecAmount (allB : List BookingDocument)
    (allP : List ProjectDocument) (cbs : List BookingDocument) : ℚ :=
  ((firstDedup (cbs.map (·.projectId))).map (fun pid =>
    match lifetimeRate allB allP pid with
    | none => 0
    | some r =>
      sumDurations (cbs.filter (fun b => decide (b.projectId = pid))) * r)).sum

/-- Stated from the spec's wording: the recipe entry produced for the client
referenced by `cid` — keyed by the client's display name, carrying the
monthly hours, the blended rate (`amount / hours`, 0 without positive
hours) and the monthly amount; `none` when the client is not in the
reference list. -/
def clientEntry (allB : List BookingDocument) (allP : List ProjectDocument)
    (allC : List ClientDocument) (y m : Int) (cid : String) :
    Option (String × ClientMonthlyMetrics) :=
  (allC.find? (fun c => decide (c.id = cid))).map (fun cl =>
    let cbs := (allB.filter (fun b => decide (isSameMonth b y m))).filter
      (fun b => decide (b.clientId = cid))
    let hrs := clientSpecHours allB allP cbs
    let amt := clientSpecAmount allB allP cbs
    (cl.name, ⟨hrs, if 0 < hrs then amt / hrs else 0, amt⟩))

/-! Concrete records used to ground the claims' example scenarios. -/

/-- A `personalizado` project with no custom rate. -/
def persNoRate : ProjectDocument := ⟨"p1", "P", "personalizado", none, none⟩

/-- A package-billed project. -/
def pacProj : ProjectDocument := ⟨"p2", "P2", "pacote", none, none⟩

/-- A booking from 14:00 to 16:00, in minutes since midnight. -/
def scenarioBooking : Booking := ⟨"b1", 840, 960, "Ana", none, none⟩

/-- A booking from 15:00 to 16:00. -/
def laterBooking : Booking := ⟨"b2", 900, 960, "Ana", none, none⟩

/-- A booking from 5:00 to 6:00, far from the midnight slot. -/
def farBooking : Booking := ⟨"b3", 300, 360, "Ana", none, none⟩

/-- Two bookings of 5 and 6 hours on the package project. -/
def pacBookings : List BookingDocument :=
  [⟨"d1", 2024, 5, "c1", "p2", 5⟩, ⟨"d2", 2024, 5, "c1", "p2", 6⟩]

/-- A client. -/
def anaClient : ClientDocument := ⟨"c1", "Ana"⟩

/-- A package project whose lifetime hours will be 10. -/
def tierProj : ProjectDocument := ⟨"pa", "A", "pacote", none, none⟩

/-- A custom-rate project at 160/hr. -/
def customProj : ProjectDocument := ⟨"pb", "B", "personalizado", some 160, none⟩

/-- 10 monthly hours on the 260/hr project and 5 on the 160/hr project. -/
def monthBookings : List BookingDocument :=
  [⟨"e1", 2024, 5, "c1", "pa", 10⟩, ⟨"e2", 2024, 5, "c1", "pb", 5⟩]

/-- Two distinct clients sharing the display name "Ana". -/
def collidingClients : List ClientDocument := [⟨"c1", "Ana"⟩, ⟨"c2", "Ana"⟩]

/-- One monthly booking for each of the two same-named clients, both with
resolvable client and project references. -/
def collidingBookings : List BookingDocument :=
  [⟨"f1", 2024, 5, "c1", "pa", 2⟩, ⟨"f2", 2024, 5, "c2", "pa", 3⟩]

/-! ## Claim C1 — missing custom rate on a `personalizado` project -/

/-- C1 counterexample: a `personalizado` project with no custom rate resolves
to 350 (the sub-10-hour tier applied to 0 cumulative hours) under
`getProjectPricePerHour`, not to 0. -/
theorem c1_missing_rate_not_zero_cex :
    getProjectPricePerHour persNoRate 0 = 350 ∧ (350 : ℚ) ≠ 0 := by
  refine ⟨by decide, by norm_num⟩

/-- C1 (amended): for a `personalizado` project with an absent custom rate,
`getProjectPricePerHour` falls through to the hours-based package tiers
(160 from 40h, 230 from 20h, 260 from 10h, 350 below) rather than
returning 0; the module variant `getPricePerHourForProject` is the function
that resolves 0 in that situation. -/
theorem c1_missing_rate_tier_fallback (p : ProjectDocument)
    (hb : p.billingType = "personalizado") (hr : p.customRate = none) (h : ℚ) :
    getProjectPricePerHour p h =
      (if 40 ≤ h then 160 else if 20 ≤ h then 230
       else if 10 ≤ h then 260 else 350) ∧
    getPricePerHourForProject p = 0 := by
  constructor
  · unfold getProjectPricePerHour
    rw [hr, if_neg]
    rintro ⟨-, hcontra⟩
    simp at hcontra
  · unfold getPricePerHourForProject
    rw [if_pos hb, hr]
    rfl

/-- Witness for `c1_missing_rate_tier_fallback` at a concrete project and
0 cumulative hours. -/
theorem c1_missing_rate_tier_fallback_witness :
    getProjectPricePerHour persNoRate 0 = 350 ∧
    getPricePerHourForProject persNoRate = 0 := by
  have h := c1_missing_rate_tier_fallback persNoRate rfl rfl 0
  norm_num at h
  exact h

/-! ## Claim C3 — the package tier step function -/

/-- C3 counterexample: at 39 cumulative hours the package rate is 230 (the
`hours ≥ 20` tier), not the 350 the claim asserts. -/
theorem c3_rate_at_39_cex :
    getProjectPricePerHour pacProj 39 = 230 ∧ (230 : ℚ) ≠ 350 := by
  refine ⟨by decide, by norm_num⟩

/-- C3 (amended): for package billing the rate is the step function with
inclusive lower bounds where the highest applicable tier wins — 160 from
40h, 230 from 20h, 260 from 10h, 350 below — so rate(39) = 230 (not 350),
rate(40) = 160, rate(9.9) = 350, rate(10) = 260, rate(20) = 230, and the
rate is monotonic non-increasing in the cumulative hours. -/
theorem c3_package_tier_step (p : ProjectDocument)
    (hb : p.billingType = "pacote") :
    (∀ h : ℚ, getProjectPricePerHour p h =
      if 40 ≤ h then 160 else if 20 ≤ h then 230
      else if 10 ≤ h then 260 else 350) ∧
    getProjectPricePerHour p 39 = 230 ∧
    getProjectPricePerHour p 40 = 160 ∧
    getProjectPricePerHour p (99 / 10) = 350 ∧
    getProjectPricePerHour p 10 = 260 ∧
    getProjectPricePerHour p 20 = 230 ∧
    (∀ h1 h2 : ℚ, h1 ≤ h2 →
      getProjectPricePerHour p h2 ≤ getProjectPricePerHour p h1) := by
  have key : ∀ h : ℚ, getProjectPricePerHour p h =
      if 40 ≤ h then 160 else if 20 ≤ h then 230
      else if 10 ≤ h then 260 else 350 := by
    intro h
    unfold getProjectPricePerHour
    rw [if_neg]
    rintro ⟨hcontra, -⟩
    rw [hb] at hcontra
    simp at hcontra
  refine ⟨key, ?_, ?_, ?_, ?_, ?_, ?_⟩
  · rw [key]; norm_num
  · rw [key]; norm_num
  · rw [key]; norm_num
  · rw [key]; norm_num
  · rw [key]; norm_num
  · intro h1 h2 hle
    rw [key, key]
    split_ifs <;> linarith

/-- Witness for `c3_package_tier_step` at the concrete package project. -/
theorem c3_package_tier_step_witness :
    getProjectPricePerHour pacProj 39 = 230 ∧
    getProjectPricePerHour pacProj 40 = 160 := by
  have h := c3_package_tier_step pacProj rfl
  exact ⟨h.2.1, h.2.2.1⟩

/-! ## Claim C4 — retroactive project cost -/

/-- C4: for a present project, `calculateProjectCost` sums the bookings'
durations, resolves the rate from that lifetime total, and multiplies; on a
package project with bookings of 5h and 6h the 11 cumulative hours are all
priced at 260/hr for a total of 2860. -/
theorem c4_project_cost_retroactive :
    (∀ (bs : List BookingDocument) (p : ProjectDocument),
      calculateProjectCost bs (some p) =
        some ⟨sumDurations bs, getProjectPricePerHour p (sumDurations bs),
              sumDurations bs * getProjectPricePerHour p (sumDurations bs)⟩) ∧
    calculateProjectCost pacBookings (some pacProj) = some ⟨11, 260, 2860⟩ := by
  refine ⟨fun bs p => rfl, ?_⟩
  show some _ = some _
  norm_num [sumDurations, pacBookings, getProjectPricePerHour, pacProj]

/-! ## Claim C6 — the 14:00–16:00 buffer scenario -/

/-- C6: for a booking from 14:00 to 16:00 with the default one-hour buffer,
the 13:00 slot is buffer, 14:00 and 15:00 are booked, 16:00 is buffer, and
17:00 is free. -/
theorem c6_buffer_scenario :
    checkSlotAvailability 780 [scenarioBooking] =
      ⟨false, true, some scenarioBooking⟩ ∧
    checkSlotAvailability 840 [scenarioBooking] =
      ⟨true, false, some scenarioBooking⟩ ∧
    checkSlotAvailability 900 [scenarioBooking] =
      ⟨true, false, some scenarioBooking⟩ ∧
    checkSlotAvailability 960 [scenarioBooking] =
      ⟨false, true, some scenarioBooking⟩ ∧
    checkSlotAvailability 1020 [scenarioBooking] = ⟨false, false, none⟩ := by
  decide

/-! ## Claim C7 — null result exactly for an absent project -/

/-- C7: `calculateProjectCost` returns the absent result exactly when the
project argument is absent; every present project yields a metric. -/
theorem c7_null_iff_project_absent (bs : List BookingDocument)
    (project : Option ProjectDocument) :
    calculateProjectCost bs project = none ↔ project = none := by
  cases project <;> simp [calculateProjectCost]

/-! ## Claim C9 — the Monday-to-Saturday display week -/

/-- C9: `getWeekDates` returns exactly 6 dates — the Monday through Saturday
of the week containing the reference instant, in consecutive order — and no
Sunday is present. -/
theorem c9_week_dates (d : Int) :
    (getWeekDates d).length = 6 ∧
    (getWeekDates d).map dayOfWeek = [0, 1, 2, 3, 4, 5] ∧
    (∃ a, getWeekDates d = [a, a + 1, a + 2, a + 3, a + 4, a + 5] ∧
      dayOfWeek a = 0 ∧ a ≤ d ∧ d < a + 7) ∧
    ∀ x ∈ getWeekDates d, dayOfWeek x ≠ 6 := by
  have hlist : getWeekDates d =
      [startOfWeekMonday d, startOfWeekMonday d + 1, startOfWeekMonday d + 2,
       startOfWeekMonday d + 3, startOfWeekMonday d + 4,
       startOfWeekMonday d + 5] := by
    simp [getWeekDates, List.range_succ]
  rw [hlist]
  refine ⟨rfl, ?_, ⟨startOfWeekMonday d, rfl, ?_, ?_, ?_⟩, ?_⟩
  · simp only [List.map_cons, List.map_nil, dayOfWeek, startOfWeekMonday,
      List.cons.injEq, and_true]
    omega
  · unfold dayOfWeek startOfWeekMonday; omega
  · unfold startOfWeekMonday; omega
  · unfold startOfWeekMonday; omega
  · intro x hx
    simp only [List.mem_cons, List.not_mem_nil, or_false] at hx
    unfold startOfWeekMonday at hx
    unfold dayOfWeek
    rcases hx with h | h | h | h | h | h <;> subst h <;> omega

/-! ## Claim C10 — result-shape invariant of the slot classifier -/

/-- C10: `checkSlotAvailability` never flags a slot as both booked and
buffer, and it carries a booking reference exactly when one of the two flags
is set. -/
theorem c10_flags_exclusive_details_iff (s : Int) (bs : List Booking) :
    ¬((checkSlotAvailability s bs).isBooked = true ∧
      (checkSlotAvailability s bs).isBuffer = true) ∧
    ((checkSlotAvailability s bs).bookingDetails.isSome = true ↔
      ((checkSlotAvailability s bs).isBooked = true ∨
       (checkSlotAvailability s bs).isBuffer = true)) := by
  simp only [checkSlotAvailability]
  cases h1 : bs.find? (fun b => decide (bookedCond s (s + 60) b)) with
  | some b => simp
  | none =>
    cases h2 : bs.find? (fun b =>
        !(decide (bookedCond s (s + 60) b)) && decide (bufferCond s b)) with
    | some b => simp
    | none => simp

/-! ## Claim C2 — slots away from every booking -/

/-- C2 counterexample: the 15:00–16:00 booking does not overlap the slot
interval [14:00, 15:00), yet `checkSlotAvailability` classifies the 14:00
slot as a buffer slot, not as free. -/
theorem c2_nonoverlap_buffer_cex :
    (∀ b ∈ [laterBooking], ¬ overlapsSlot 840 b) ∧
    checkSlotAvailability 840 [laterBooking] =
      ⟨false, true, some laterBooking⟩ := by
  decide

/-- C2 (amended): a slot is reported free (`isBooked = false` and
`isBuffer = false`) when, for well-formed bookings (start before end), no
booking overlaps the slot interval AND no booking's one-hour buffer zone
(the hour before its start or the hour after its end) contains the slot
start.  Non-overlap alone does not suffice: the buffer zones must also be
clear (see the counterexample). -/
theorem c2_clear_slot_free (s : Int) (bs : List Booking)
    (hwf : ∀ b ∈ bs, b.startTime < b.endTime)
    (hov : ∀ b ∈ bs, ¬ overlapsSlot s b)
    (hbuf : ∀ b ∈ bs, ¬ bufferCond s b) :
    checkSlotAvailability s bs = ⟨false, false, none⟩ := by
  have h1 : bs.find? (fun b => decide (bookedCond s (s + 60) b)) = none := by
    rw [List.find?_eq_none]
    intro b hb
    have hw := hwf b hb
    have ho := hov b hb
    simp only [overlapsSlot, max_lt_iff, lt_min_iff] at ho
    simp only [decide_eq_true_eq, bookedCond]
    omega
  have h2 : bs.find? (fun b =>
      !(decide (bookedCond s (s + 60) b)) && decide (bufferCond s b)) = none := by
    rw [List.find?_eq_none]
    intro b hb
    have hb' := hbuf b hb
    simp only [Bool.and_eq_true, decide_eq_true_eq]
    rintro ⟨-, h4⟩
    exact hb' h4
  simp only [checkSlotAvailability, h1, h2]

/-- Witness for `c2_clear_slot_free`: the midnight slot against a single
5:00–6:00 booking. -/
theorem c2_clear_slot_free_witness :
    checkSlotAvailability 0 [farBooking] = ⟨false, false, none⟩ :=
  c2_clear_slot_free 0 [farBooking] (by decide) (by decide) (by decide)

/-! ## List infrastructure for the aggregation proofs -/

/-- `sumDurations` with an arbitrary initial accumulator. -/
theorem sumDurations_go (l : List BookingDocument) :
    ∀ a : ℚ, l.foldl (fun s b => s + b.duration) a
      = a + (l.map (·.duration)).sum := by
  induction l with
  | nil => intro a; simp
  | cons x t ih => intro a; simp [ih, add_assoc]

/-- `sumDurations` is the sum of the durations. -/
theorem sumDurations_eq (l : List BookingDocument) :
    sumDurations l = (l.map (·.duration)).sum := by
  unfold sumDurations
  rw [sumDurations_go]
  ring

/-- Membership in `firstDedup` is membership in the original list. -/
theorem mem_firstDedup (x : String) :
    ∀ (l : List String), x ∈ firstDedup l ↔ x ∈ l := by
  intro l
  induction l using firstDedup.induct with
  | case1 => simp [firstDedup]
  | case2 a t ih =>
    simp only [firstDedup, List.mem_cons, ih, List.mem_filter,
      decide_eq_true_eq]
    constructor
    · rintro (h | h)
      · exact Or.inl h
      · exact Or.inr h.1
    · rintro (h | h)
      · exact Or.inl h
      · by_cases hxa : x = a
        · exact Or.inl hxa
        · exact Or.inr ⟨h, hxa⟩

/-- `firstDedup` produces a duplicate-free list. -/
theorem firstDedup_nodup : ∀ (l : List String), (firstDedup l).Nodup := by
  intro l
  induction l using firstDedup.induct with
  | case1 => simp [firstDedup]
  | case2 a t ih =>
    simp only [firstDedup, List.nodup_cons]
    refine ⟨?_, ih⟩
    intro hmem
    rw [mem_firstDedup, List.mem_filter] at hmem
    simp at hmem

/-- Filtering commutes with mapping the grouping key. -/
theorem filter_ne_map_key {α : Type} (key : α → String) (a : String)
    (t : List α) :
    (t.map key).filter (fun z => decide (z ≠ a))
      = (t.filter (fun b => decide (key b ≠ a))).map key := by
  induction t with
  | nil => rfl
  | cons x s ih =>
    simp only [decide_not] at ih
    by_cases hxa : key x = a
    · simp [List.filter_cons, hxa, ih]
    · simp [List.filter_cons, hxa, ih]

/-- Splitting a mapped sum along a Boolean predicate. -/
theorem sum_map_filter_partition {α : Type} (p : α → Bool) (f : α → ℚ)
    (l : List α) :
    ((l.filter p).map f).sum + ((l.filter (fun x => !(p x))).map f).sum
      = (l.map f).sum := by
  induction l with
  | nil => simp
  | cons x t ih => cases hx : p x <;> simp [List.filter_cons, hx] <;> linarith

/-- Summing group sums over the distinct keys of a list recovers the total
sum: the grouping performed by the aggregation loses no element. -/
theorem sum_over_groups {α : Type} (key : α → String) (f : α → ℚ) :
    ∀ (n : ℕ) (l : List α), l.length ≤ n →
    ((firstDedup (l.map key)).map
      (fun k => ((l.filter (fun x => decide (key x = k))).map f).sum)).sum
      = (l.map f).sum := by
  intro n
  induction n with
  | zero =>
    intro l hl
    rw [List.length_eq_zero.mp (Nat.le_zero.mp hl)]
    simp [firstDedup]
  | succ n ih =>
    intro l hl
    match l with
    | [] => simp [firstDedup]
    | x :: t =>
      rw [List.map_cons]
      simp only [firstDedup, filter_ne_map_key key (key x) t]
      rw [List.map_cons, List.sum_cons]
      have hhead : (((x :: t).filter
          (fun y => decide (key y = key x))).map f).sum
          = f x + ((t.filter (fun y => decide (key y = key x))).map f).sum := by
        rw [List.filter_cons]
        simp
      have htail : ∀ k ∈ firstDedup
          ((t.filter (fun b => decide (key b ≠ key x))).map key),
          (((x :: t).filter (fun y => decide (key y = k))).map f).sum
          = (((t.filter (fun b => decide (key b ≠ key x))).filter
              (fun y => decide (key y = k))).map f).sum := by
        intro k hk
        rw [mem_firstDedup] at hk
        rcases List.mem_map.mp hk with ⟨b, hb, rfl⟩
        have hbne : key b ≠ key x := by
          have := (List.mem_filter.mp hb).2
          simpa using this
        have hxk : decide (key x = key b) = false :=
          decide_eq_false (fun hcontra => hbne hcontra.symm)
        rw [List.filter_cons]
        simp only [hxk, Bool.false_eq_true, if_false]
        have hfeq : t.filter (fun y => decide (key y = key b))
            = (t.filter (fun bb => decide (key bb ≠ key x))).filter
                (fun y => decide (key y = key b)) := by
          rw [List.filter_filter]
          apply List.filter_congr
          intro y hy
          cases hyk : decide (key y = key b) with
          | true =>
            have hyb : key y = key b := of_decide_eq_true hyk
            simp [hyb, hbne]
          | false => simp [hyk]
        rw [hfeq]
      rw [List.map_congr_left htail]
      have hlen : (t.filter (fun b => decide (key b ≠ key x))).length ≤ n := by
        have h1 := List.length_filter_le
          (fun b => decide (key b ≠ key x)) t
        have h2 : t.length ≤ n := by
          simpa using Nat.succ_le_succ_iff.mp hl
        omega
      rw [ih (t.filter (fun b => decide (key b ≠ key x))) hlen]
      rw [hhead]
      have hpart := sum_map_filter_partition
        (fun y => decide (key y = key x)) f t
      have hnot : t.filter (fun y => !(decide (key y = key x)))
          = t.filter (fun b => decide (key b ≠ key x)) := by
        apply List.filter_congr
        intro y hy
        simp
      rw [hnot] at hpart
      rw [List.map_cons, List.sum_cons]
      linarith

/-- The accumulating per-client loop equals the spec-style sums: the pair it
folds up is exactly (monthly hours over resolvable projects, monthly hours
priced at each project's lifetime-resolved rate). -/
theorem clientProjectFold_eq (allB : List BookingDocument)
    (allP : List ProjectDocument) (cbs : List BookingDocument) :
    clientProjectFold allB allP cbs
      = (clientSpecHours allB allP cbs, clientSpecAmount allB allP cbs) := by
  unfold clientProjectFold clientSpecHours clientSpecAmount
  generalize firstDedup (cbs.map (·.projectId)) = ks
  induction ks using List.reverseRecOn with
  | nil => simp
  | append_singleton ks k ih =>
    rw [List.foldl_append, List.foldl_cons, List.foldl_nil, ih]
    cases hf : allP.find? (fun p => decide (p.id = k)) with
    | none =>
      simp only [hf, lifetimeRate, List.map_append, List.sum_append,
        List.map_cons, List.map_nil, List.sum_cons, List.sum_nil,
        Option.map_none]
      simp
    | some project =>
      simp only [hf, lifetimeRate, calculateProjectCost, List.map_append,
        List.sum_append, List.map_cons, List.map_nil, List.sum_cons,
        List.sum_nil, Option.map_some]
      simp

/-- `clientSpecHours` as a per-booking sum: each monthly booking whose
project resolves contributes its duration, the others contribute nothing. -/
theorem clientSpecHours_eq_sum (allB : List BookingDocument)
    (allP : List ProjectDocument) (cbs : List BookingDocument) :
    clientSpecHours allB allP cbs
      = (cbs.map (fun b =>
          (((lifetimeRate allB allP b.projectId).map
            (fun _ => b.duration)).getD 0))).sum := by
  unfold clientSpecHours
  have hcongr : ∀ pid ∈ firstDedup (cbs.map (·.projectId)),
      (match lifetimeRate allB allP pid with
       | none => (0 : ℚ)
       | some _ =>
         sumDurations (cbs.filter (fun b => decide (b.projectId = pid))))
      = ((cbs.filter (fun b => decide (b.projectId = pid))).map (fun b =>
          (((lifetimeRate allB allP b.projectId).map
            (fun _ => b.duration)).getD 0))).sum := by
    intro pid hpid
    cases hr : lifetimeRate allB allP pid with
    | none =>
      symm
      apply List.sum_eq_zero
      intro q hq
      rcases List.mem_map.mp hq with ⟨b, hb, rfl⟩
      have hbp : b.projectId = pid := by
        have := (List.mem_filter.mp hb).2
        simpa using this
      rw [hbp, hr]
      rfl
    | some r =>
      change sumDurations (cbs.filter (fun b => decide (b.projectId = pid))) = _
      rw [sumDurations_eq]
      congr 1
      apply List.map_congr_left
      intro b hb
      have hbp : b.projectId = pid := by
        have := (List.mem_filter.mp hb).2
        simpa using this
      rw [hbp, hr]
      rfl
  rw [List.map_congr_left hcongr]
  exact sum_over_groups (fun b => b.projectId) _ cbs.length cbs le_rfl

/-- `clientSpecAmount` as a per-booking sum: each monthly booking whose
project resolves contributes its duration times the project's
lifetime-resolved rate. -/
theorem clientSpecAmount_eq_sum (allB : List BookingDocument)
    (allP : List ProjectDocument) (cbs : List BookingDocument) :
    clientSpecAmount allB allP cbs
      = (cbs.map (fun b =>
          (((lifetimeRate allB allP b.projectId).map
            (fun r => b.duration * r)).getD 0))).sum := by
  unfold clientSpecAmount
  have hcongr : ∀ pid ∈ firstDedup (cbs.map (·.projectId)),
      (match lifetimeRate allB allP pid with
       | none => (0 : ℚ)
       | some r =>
         sumDurations (cbs.filter (fun b => decide (b.projectId = pid))) * r)
      = ((cbs.filter (fun b => decide (b.projectId = pid))).map (fun b =>
          (((lifetimeRate allB allP b.projectId).map
            (fun r => b.duration * r)).getD 0))).sum := by
    intro pid hpid
    cases hr : lifetimeRate allB allP pid with
    | none =>
      symm
      apply List.sum_eq_zero
      intro q hq
      rcases List.mem_map.mp hq with ⟨b, hb, rfl⟩
      have hbp : b.projectId = pid := by
        have := (List.mem_filter.mp hb).2
        simpa using this
      rw [hbp, hr]
      rfl
    | some r =>
      change sumDurations (cbs.filter (fun b => decide (b.projectId = pid))) * r = _
      rw [sumDurations_eq, ← List.sum_map_mul_right]
      congr 1
      apply List.map_congr_left
      intro b hb
      have hbp : b.projectId = pid := by
        have := (List.mem_filter.mp hb).2
        simpa using this
      rw [hbp, hr]
      rfl
  rw [List.map_congr_left hcongr]
  exact sum_over_groups (fun b => b.projectId) _ cbs.length cbs le_rfl

/-- Every entry of `setEntry r k v` is an old entry or the new pair. -/
theorem mem_setEntry {r : MonthlyRecipe} {k : String}
    {v : ClientMonthlyMetrics} {e : String × ClientMonthlyMetrics}
    (h : e ∈ setEntry r k v) : e ∈ r ∨ e = (k, v) := by
  unfold setEntry at h
  by_cases hany : r.any (fun p => decide (p.1 = k)) = true
  · rw [if_pos hany] at h
    rcases List.mem_map.mp h with ⟨p, hp, he⟩
    by_cases hk : p.1 = k
    · rw [if_pos hk] at he
      right; exact he.symm
    · rw [if_neg hk] at he
      left; exact he ▸ hp
  · rw [if_neg hany] at h
    rcases List.mem_append.mp h with h' | h'
    · left; exact h'
    · right; simpa using h'

/-- On a fresh key, `setEntry` appends. -/
theorem setEntry_fresh {r : MonthlyRecipe} {k : String}
    {v : ClientMonthlyMetrics} (h : ∀ p ∈ r, p.1 ≠ k) :
    setEntry r k v = r ++ [(k, v)] := by
  unfold setEntry
  rw [if_neg]
  simp only [List.any_eq_true, decide_eq_true_eq, not_exists, not_and]
  exact h

/-- A list whose image under `f` has no duplicates admits no two distinct
members with the same image. -/
theorem nodup_map_inj_on {α β : Type} (f : α → β) :
    ∀ (l : List α), (l.map f).Nodup →
    ∀ a ∈ l, ∀ b ∈ l, f a = f b → a = b := by
  intro l
  induction l with
  | nil =>
    intro _ a ha
    exact absurd ha (List.not_mem_nil a)
  | cons x t ih =>
    intro hnd a ha b hb hfab
    rw [List.map_cons, List.nodup_cons] at hnd
    rcases List.mem_cons.mp ha with rfl | ha'
    · rcases List.mem_cons.mp hb with rfl | hb'
      · rfl
      · exfalso
        apply hnd.1
        rw [hfab]
        exact List.mem_map_of_mem f hb'
    · rcases List.mem_cons.mp hb with rfl | hb'
      · exfalso
        apply hnd.1
        rw [← hfab]
        exact List.mem_map_of_mem f ha'
      · exact ih hnd.2 a ha' b hb' hfab

/-- Every entry the monthly aggregation produces is the spec-side entry of
some client reference. -/
theorem mem_monthly_metrics_entry (allB : List BookingDocument)
    (allP : List ProjectDocument) (allC : List ClientDocument) (y m : Int)
    (e : String × ClientMonthlyMetrics)
    (he : e ∈ calculateMonthlyClientMetrics allB allP allC y m) :
    ∃ cid, clientEntry allB allP allC y m cid = some e := by
  simp only [calculateMonthlyClientMetrics] at he
  revert he
  generalize firstDedup
    ((allB.filter (fun b => decide (isSameMonth b y m))).map
      (fun b => b.clientId)) = ks
  induction ks using List.reverseRecOn with
  | nil =>
    intro he
    simp at he
  | append_singleton ks k ih =>
    intro he
    rw [List.foldl_append, List.foldl_cons, List.foldl_nil] at he
    cases hf : allC.find? (fun c => decide (c.id = k)) with
    | none =>
      rw [hf] at he
      exact ih he
    | some cl =>
      rw [hf] at he
      rcases mem_setEntry he with h' | h'
      · exact ih h'
      · refine ⟨k, ?_⟩
        rw [h']
        simp only [clientEntry, hf, Option.map_some', clientProjectFold_eq]

/-- When distinct clients carry distinct display names, the monthly
aggregation is exactly the spec-side entry of each distinct monthly client
reference, in first-appearance order: no entry is lost to an overwrite. -/
theorem recipe_eq_filterMap (allB : List BookingDocument)
    (allP : List ProjectDocument) (allC : List ClientDocument) (y m : Int)
    (hname : (allC.map (·.name)).Nodup) :
    calculateMonthlyClientMetrics allB allP allC y m
      = (firstDedup ((allB.filter (fun b => decide (isSameMonth b y m))).map
          (fun b => b.clientId))).filterMap (clientEntry allB allP allC y m) := by
  simp only [calculateMonthlyClientMetrics]
  have hnd : (firstDedup ((allB.filter (fun b => decide (isSameMonth b y m))).map
      (fun b => b.clientId))).Nodup := firstDedup_nodup _
  revert hnd
  generalize firstDedup
    ((allB.filter (fun b => decide (isSameMonth b y m))).map
      (fun b => b.clientId)) = ks
  induction ks using List.reverseRecOn with
  | nil =>
    intro _
    simp
  | append_singleton ks k ih =>
    intro hnd
    rw [List.nodup_append] at hnd
    have hkks : k ∉ ks := fun hmem => hnd.2.2 hmem (List.mem_singleton.mpr rfl)
    rw [List.foldl_append, List.foldl_cons, List.foldl_nil, ih hnd.1,
      List.filterMap_append]
    split
    next hf =>
      have hk : clientEntry allB allP allC y m k = none := by
        simp only [clientEntry, hf, Option.map_none']
      simp [hk]
    next cl hf =>
      have hfresh : ∀ p ∈ ks.filterMap (clientEntry allB allP allC y m),
          p.1 ≠ cl.name := by
        intro p hp
        rcases List.mem_filterMap.mp hp with ⟨cid, hcid, hpcid⟩
        cases hf' : allC.find? (fun c => decide (c.id = cid)) with
        | none => rw [clientEntry, hf'] at hpcid; simp at hpcid
        | some cl' =>
          rw [clientEntry, hf', Option.map_some', Option.some_inj] at hpcid
          have hp1 : p.1 = cl'.name := by rw [← hpcid]
          rw [hp1]
          intro hcontra
          have hcl'mem := List.mem_of_find?_eq_some hf'
          have hclmem := List.mem_of_find?_eq_some hf
          have heq : cl' = cl :=
            nodup_map_inj_on (fun c => c.name) allC hname cl' hcl'mem cl
              hclmem hcontra
          have hid' : cl'.id = cid := by
            have := List.find?_some hf'
            simpa using this
          have hid : cl.id = k := by
            have := List.find?_some hf
            simpa using this
          apply hkks
          have : k = cid := by rw [← hid, ← heq, hid']
          rw [this]
          exact hcid
      rw [setEntry_fresh hfresh]
      congr 1
      have hk : clientEntry allB allP allC y m k
          = some (cl.name,
              ⟨clientSpecHours allB allP
                 ((allB.filter (fun b => decide (isSameMonth b y m))).filter
                   (fun b => decide (b.clientId = k))),
               if 0 < clientSpecHours allB allP
                   ((allB.filter (fun b => decide (isSameMonth b y m))).filter
                     (fun b => decide (b.clientId = k))) then
                 clientSpecAmount allB allP
                   ((allB.filter (fun b => decide (isSameMonth b y m))).filter
                     (fun b => decide (b.clientId = k))) /
                 clientSpecHours allB allP
                   ((allB.filter (fun b => decide (isSameMonth b y m))).filter
                     (fun b => decide (b.clientId = k)))
               else 0,
               clientSpecAmount allB allP
                 ((allB.filter (fun b => decide (isSameMonth b y m))).filter
                   (fun b => decide (b.clientId = k)))⟩) := by
        simp only [clientEntry, hf, Option.map_some']
      rw [List.filterMap_cons, hk, List.filterMap_nil]
      simp [clientProjectFold_eq]

/-- Summing a projection over a `filterMap` equals summing the option-valued
contribution over the original list. -/
theorem sum_map_filterMap {α β : Type} (g : α → Option β) (f : β → ℚ)
    (l : List α) :
    ((l.filterMap g).map f).sum
      = (l.map (fun a => ((g a).map f).getD 0)).sum := by
  induction l with
  | nil => rfl
  | cons x t ih =>
    rw [List.filterMap_cons]
    cases hx : g x with
    | none => simp [hx, ih]
    | some b => simp [hx, ih]

/-! ## Claim C5 — monthly client metrics and the blended rate -/

/-- C5: every entry `calculateMonthlyClientMetrics` reports is, for some
client reference of the month, the client's monthly hours together with the
monthly amount obtained by pricing each (client, project) pair's monthly
hours at the project's lifetime-resolved rate, and the reported
`pricePerHour` is `totalAmount / totalHours` when the hours are positive and
0 when they are zero; in particular a client with 10 monthly hours on a
260/hr package project and 5 monthly hours on a 160/hr custom project is
reported as totalHours = 15, totalAmount = 3400, pricePerHour = 3400/15 =
680/3 ≈ 226.67. -/
theorem c5_blended_monthly_metrics :
    (∀ (allB : List BookingDocument) (allP : List ProjectDocument)
       (allC : List ClientDocument) (y m : Int) (name : String)
       (mt : ClientMonthlyMetrics),
       (name, mt) ∈ calculateMonthlyClientMetrics allB allP allC y m →
       (∃ cid, clientEntry allB allP allC y m cid = some (name, mt)) ∧
       (0 < mt.totalHours → mt.pricePerHour = mt.totalAmount / mt.totalHours) ∧
       (mt.totalHours = 0 → mt.pricePerHour = 0)) ∧
    calculateMonthlyClientMetrics monthBookings [tierProj, customProj]
      [anaClient] 2024 5 = [("Ana", ⟨15, 680 / 3, 3400⟩)] := by
  constructor
  · intro allB allP allC y m name mt hmem
    obtain ⟨cid, hcid⟩ :=
      mem_monthly_metrics_entry allB allP allC y m (name, mt) hmem
    refine ⟨⟨cid, hcid⟩, ?_⟩
    simp only [clientEntry] at hcid
    cases hf : allC.find? (fun c => decide (c.id = cid)) with
    | none =>
      rw [hf] at hcid
      simp at hcid
    | some cl =>
      rw [hf, Option.map_some', Option.some_inj] at hcid
      injection hcid with h1 h2
      subst h2
      constructor <;> intro h <;> simp_all
  · simp [calculateMonthlyClientMetrics, clientProjectFold,
      calculateProjectCost, getProjectPricePerHour, sumDurations, firstDedup,
      setEntry, isSameMonth, monthBookings, tierProj, customProj, anaClient]
    norm_num

/-- Witness for `c5_blended_monthly_metrics`: the concrete two-project
client's reported entry is the spec-side entry of its client reference. -/
theorem c5_blended_monthly_metrics_witness :
    ∃ cid, clientEntry monthBookings [tierProj, customProj] [anaClient]
      2024 5 cid = some ("Ana", ⟨15, 680 / 3, 3400⟩) :=
  (c5_blended_monthly_metrics.1 monthBookings [tierProj, customProj]
    [anaClient] 2024 5 "Ana" ⟨15, 680 / 3, 3400⟩
    (by rw [c5_blended_monthly_metrics.2];
        exact List.mem_singleton.mpr rfl)).1

/-! ## Claim C8 — dangling references are skipped silently -/

/-- C8 counterexample: two distinct clients share the display name "Ana";
every monthly booking has a resolvable client id and project id, yet the
aggregate reports only 3 of the 5 monthly hours — the first client's entry
is overwritten by the second's, so dangling references are NOT the only
bookings excluded from the result. -/
theorem c8_name_collision_cex :
    (∀ b ∈ collidingBookings,
      (collidingClients.find? (fun c => decide (c.id = b.clientId))).isSome
        = true ∧
      ([tierProj].find? (fun p => decide (p.id = b.projectId))).isSome
        = true ∧
      isSameMonth b 2024 5) ∧
    ((calculateMonthlyClientMetrics collidingBookings [tierProj]
        collidingClients 2024 5).map (fun e => e.2.totalHours)).sum = 3 ∧
    sumDurations collidingBookings = 5 ∧ (3 : ℚ) ≠ 5 := by
  refine ⟨by decide, ?_, by norm_num [sumDurations, collidingBookings],
    by norm_num⟩
  have hres : calculateMonthlyClientMetrics collidingBookings [tierProj]
      collidingClients 2024 5 = [("Ana", ⟨3, 350, 1050⟩)] := by
    simp [calculateMonthlyClientMetrics, clientProjectFold,
      calculateProjectCost, getProjectPricePerHour, sumDurations, firstDedup,
      setEntry, isSameMonth, collidingBookings, tierProj, collidingClients]
    norm_num
  rw [hres]
  norm_num

/-- C8 (amended): provided distinct clients carry distinct display names,
the monthly totals conserve exactly the bookings whose client id and project
id both resolve: summed over all reported clients, the hours equal the
durations of the resolvable monthly bookings and the amounts equal those
durations priced at each project's lifetime-resolved rate — bookings with a
dangling client or project reference contribute nothing, no error is
raised, and they are the only monthly bookings excluded. -/
theorem c8_dangling_refs_skipped (allB : List BookingDocument)
    (allP : List ProjectDocument) (allC : List ClientDocument) (y m : Int)
    (hname : (allC.map (·.name)).Nodup) :
    ((calculateMonthlyClientMetrics allB allP allC y m).map
        (fun e => e.2.totalHours)).sum
      = ((allB.filter (fun b => decide (isSameMonth b y m))).map (fun b =>
          if (allC.find? (fun c => decide (c.id = b.clientId))).isSome = true
          then ((lifetimeRate allB allP b.projectId).map
            (fun _ => b.duration)).getD 0
          else 0)).sum ∧
    ((calculateMonthlyClientMetrics allB allP allC y m).map
        (fun e => e.2.totalAmount)).sum
      = ((allB.filter (fun b => decide (isSameMonth b y m))).map (fun b =>
          if (allC.find? (fun c => decide (c.id = b.clientId))).isSome = true
          then ((lifetimeRate allB allP b.projectId).map
            (fun r => b.duration * r)).getD 0
          else 0)).sum := by
  constructor
  · rw [recipe_eq_filterMap allB allP allC y m hname, sum_map_filterMap]
    have hcongr : ∀ cid ∈ firstDedup
        ((allB.filter (fun b => decide (isSameMonth b y m))).map
          (fun b => b.clientId)),
        ((clientEntry allB allP allC y m cid).map
          (fun e => e.2.totalHours)).getD 0
        = (((allB.filter (fun b => decide (isSameMonth b y m))).filter
            (fun b => decide (b.clientId = cid))).map (fun b =>
            if (allC.find? (fun c => decide (c.id = b.clientId))).isSome = true
            then ((lifetimeRate allB allP b.projectId).map
              (fun _ => b.duration)).getD 0
            else 0)).sum := by
      intro cid hcid
      cases hf : allC.find? (fun c => decide (c.id = cid)) with
      | none =>
        have hk : clientEntry allB allP allC y m cid = none := by
          simp only [clientEntry, hf, Option.map_none']
        rw [hk]
        symm
        apply List.sum_eq_zero
        intro q hq
        rcases List.mem_map.mp hq with ⟨b, hb, rfl⟩
        have hbc : b.clientId = cid := by
          have := (List.mem_filter.mp hb).2
          simpa using this
        rw [hbc, hf]
        simp
      | some cl =>
        have hk : clientEntry allB allP allC y m cid
            = some (cl.name,
                ⟨clientSpecHours allB allP
                   ((allB.filter (fun b => decide (isSameMonth b y m))).filter
                     (fun b => decide (b.clientId = cid))),
                 if 0 < clientSpecHours allB allP
                     ((allB.filter (fun b => decide (isSameMonth b y m))).filter
                       (fun b => decide (b.clientId = cid))) then
                   clientSpecAmount allB allP
                     ((allB.filter (fun b => decide (isSameMonth b y m))).filter
                       (fun b => decide (b.clientId = cid))) /
                   clientSpecHours allB allP
                     ((allB.filter (fun b => decide (isSameMonth b y m))).filter
                       (fun b => decide (b.clientId = cid)))
                 else 0,
                 clientSpecAmount allB allP
                   ((allB.filter (fun b => decide (isSameMonth b y m))).filter
                     (fun b => decide (b.clientId = cid)))⟩) := by
          simp only [clientEntry, hf, Option.map_some']
        rw [hk]
        show clientSpecHours allB allP _ = _
        rw [clientSpecHours_eq_sum]
        congr 1
        apply List.map_congr_left
        intro b hb
        have hbc : b.clientId = cid := by
          have := (List.mem_filter.mp hb).2
          simpa using this
        rw [hbc, hf]
        simp
    rw [List.map_congr_left hcongr]
    exact sum_over_groups (fun b : BookingDocument => b.clientId) _ _ _ le_rfl
  · rw [recipe_eq_filterMap allB allP allC y m hname, sum_map_filterMap]
    have hcongr : ∀ cid ∈ firstDedup
        ((allB.filter (fun b => decide (isSameMonth b y m))).map
          (fun b => b.clientId)),
        ((clientEntry allB allP allC y m cid).map
          (fun e => e.2.totalAmount)).getD 0
        = (((allB.filter (fun b => decide (isSameMonth b y m))).filter
            (fun b => decide (b.clientId = cid))).map (fun b =>
            if (allC.find? (fun c => decide (c.id = b.clientId))).isSome = true
            then ((lifetimeRate allB allP b.projectId).map
              (fun r => b.duration * r)).getD 0
            else 0)).sum := by
      intro cid hcid
      cases hf : allC.find? (fun c => decide (c.id = cid)) with
      | none =>
        have hk : clientEntry allB allP allC y m cid = none := by
          simp only [clientEntry, hf, Option.map_none']
        rw [hk]
        symm
        apply List.sum_eq_zero
        intro q hq
        rcases List.mem_map.mp hq with ⟨b, hb, rfl⟩
        have hbc : b.clientId = cid := by
          have := (List.mem_filter.mp hb).2
          simpa using this
        rw [hbc, hf]
        simp
      | some cl =>
        have hk : clientEntry allB allP allC y m cid
            = some (cl.name,
                ⟨clientSpecHours allB allP
                   ((allB.filter (fun b => decide (isSameMonth b y m))).filter
                     (fun b => decide (b.clientId = cid))),
                 if 0 < clientSpecHours allB allP
                     ((allB.filter (fun b => decide (isSameMonth b y m))).filter
                       (fun b => decide (b.clientId = cid))) then
                   clientSpecAmount allB allP
                     ((allB.filter (fun b => decide (isSameMonth b y m))).filter
                       (fun b => decide (b.clientId = cid))) /
                   clientSpecHours allB allP
                     ((allB.filter (fun b => decide (isSameMonth b y m))).filter
                       (fun b => decide (b.clientId = cid)))
                 else 0,
                 clientSpecAmount allB allP
                   ((allB.filter (fun b => decide (isSameMonth b y m))).filter
                     (fun b => decide (b.clientId = cid)))⟩) := by
          simp only [clientEntry, hf, Option.map_some']
        rw [hk]
        show clientSpecAmount allB allP _ = _
        rw [clientSpecAmount_eq_sum]
        congr 1
        apply List.map_congr_left
        intro b hb
        have hbc : b.clientId = cid := by
          have := (List.mem_filter.mp hb).2
          simpa using this
        rw [hbc, hf]
        simp
    rw [List.map_congr_left hcongr]
    exact sum_over_groups (fun b : BookingDocument => b.clientId) _ _ _ le_rfl

/-- Witness for `c8_dangling_refs_skipped` on a concrete well-named client
list. -/
theorem c8_dangling_refs_skipped_witness :
    ((calculateMonthlyClientMetrics monthBookings [tierProj, customProj]
        [anaClient] 2024 5).map (fun e => e.2.totalHours)).sum
      = ((monthBookings.filter (fun b => decide (isSameMonth b 2024 5))).map
          (fun b =>
          if ([anaClient].find? (fun c => decide (c.id = b.clientId))).isSome
              = true
          then ((lifetimeRate monthBookings [tierProj, customProj]
            b.projectId).map (fun _ => b.duration)).getD 0
          else 0)).sum :=
  (c8_dangling_refs_skipped monthBookings [tierProj, customProj] [anaClient]
    2024 5 (by decide)).1
